import Mathlib

/-!
Verification development for the pdfgpt PDF question-answering service.

The repository has two pipelines:
* ingestion (`src/app/api/uploadthing/core.ts`): upload-complete handling,
  PDF page chunking, byte truncation of excerpts, content-hash keyed
  embedding, and vector upserts into a per-document namespace;
* retrieval (`src/app/api/message/route.ts`): authentication, message
  persistence, query embedding, top-K search, prompt assembly with a
  conversation window, and a streamed completion;
plus a client-side streaming merge controller (`ChatContext` provider)
that optimistically maintains a paginated message cache.

Everything below is a shallow embedding of that TypeScript: pure data is
translated to Lean structures, Prisma/Pinecone/network collaborators become
explicit function parameters or `Except` values, and JavaScript runtime
failures (destructuring `null`, indexing past the end of an array) are
made explicit as `JsError` results.
-/

namespace PdfGpt

/-- A JavaScript runtime failure that escapes as an exception. -/
inductive JsError where
  /-- e.g. destructuring `null`/`undefined` or reading a property of
  `undefined` (`old.pages[0]!.messages` on an empty array). -/
  | typeError
  deriving Repr, DecidableEq

/-! ## Client-side chat cache model (`src/components/chat/ChatContext.tsx`)

The tRPC `getFileMessages` infinite query caches pages of messages.
`ExtendedMessage` fields used by the controller: `id`, `text`,
`isUserMessage`, `createdAt`. -/

/-- A message as held in the client-side react-query cache. -/
structure ChatMessage where
  createdAt : String
  id : String
  text : String
  isUserMessage : Bool
  deriving Repr, DecidableEq

/-- One page of the `getFileMessages` infinite query result. -/
structure MessagesPage where
  messages : List ChatMessage
  deriving Repr, DecidableEq

/-- The cached value of the infinite query: `{ pages, pageParams }`. -/
structure InfiniteMessages where
  pages : List MessagesPage
  pageParams : List (Option String)
  deriving Repr, DecidableEq

/-- Client-side state touched by the `ChatContextProvider` mutation
callbacks: the input text (`message` state), the `backupMessage` ref, the
loading flag, and the two react-query cache entries the callbacks write.
`setInfiniteData({ fileId, limit: INFINITE_QUERY_LIMIT }, ...)` writes the
infinite-query entry, while `setData({ fileId }, ...)` writes a distinct,
non-paginated cache entry keyed by `{ fileId }` alone; the two are held in
separate fields. -/
structure ChatState where
  message : String
  backupMessage : String
  isLoading : Bool
  /-- cache entry under key `getFileMessages {fileId, limit}` (infinite). -/
  infiniteCache : Option InfiniteMessages
  /-- cache entry under key `getFileMessages {fileId}` written by `setData`. -/
  plainCache : Option (List ChatMessage)
  deriving Repr, DecidableEq

/-- The updater passed to `setInfiniteData` in `onMutate` (lines 97-122 of
`ChatContext.tsx`): absent data is replaced by an empty
`{ pages: [], pageParams: [] }` (the optimistic message is dropped);
otherwise `old.pages[0]!.messages` is dereferenced, which on an empty
`pages` array reads `.messages` of `undefined` and throws; on a non-empty
array the synthesized message is prepended to the first page. -/
def addOptimisticMessage (newMsg : ChatMessage) :
    Option InfiniteMessages → Except JsError InfiniteMessages
  | none => .ok { pages := [], pageParams := [] }
  | some old =>
    match old.pages, old.pageParams with
    | [], _ => .error .typeError
    | latestPage :: restPages, pp =>
      .ok { pages := { latestPage with
                       messages := newMsg :: latestPage.messages } :: restPages,
            pageParams := pp }

/-- The context object returned by `onMutate` and handed to `onError`. -/
structure MutationContext where
  previousMessages : List ChatMessage
  deriving Repr, DecidableEq

/-- `onMutate` (lines 88-131): back up the submitted text, clear the input,
capture `previousMessages := utils.getFileMessages.getInfiniteData()`,
apply the optimistic updater, set loading, and return the flattened
snapshot as context. The updater mutates the captured first-page object in
place (`latestPage.messages = [...]` aliases `old.pages[0]`), so the
`flatMap` that builds the context — executed after `setInfiniteData` — sees
the pages with the optimistic message already prepended; the context list
is therefore the flattening of the *updated* pages, not of the pre-submit
pages. -/
def chatOnMutate (submitted newId ts : String) (st : ChatState) :
    Except JsError (ChatState × MutationContext) :=
  let st1 : ChatState := { st with backupMessage := submitted, message := "" }
  let previousMessages := st1.infiniteCache
  let newMsg : ChatMessage :=
    { createdAt := ts, id := newId, text := submitted, isUserMessage := true }
  match addOptimisticMessage newMsg st1.infiniteCache with
  | .error e => .error e
  | .ok updated =>
    let ctxList :=
      match previousMessages with
      | none => []
      | some _ => (updated.pages.map (·.messages)).flatten
    .ok ({ st1 with infiniteCache := some updated, isLoading := true },
         { previousMessages := ctxList })

/-- `onError` (lines 141-147): restore the input from the backup and call
`setData({ fileId }, { messages: context?.previousMessages ?? [] })`. Note
this writes the non-paginated `{ fileId }` cache entry; the infinite-query
entry written by the optimistic update is left untouched. -/
def chatOnError (ctx : MutationContext) (st : ChatState) : ChatState :=
  { st with message := st.backupMessage,
            plainCache := some ctx.previousMessages }

/-- Fixed placeholder identifier of the in-progress assistant message. -/
def aiResponseId : String := "ai-response"

/-- `old.pages.some(page => page.messages.some(m => m.id === "ai-response"))`. -/
def hasAiResponse (pages : List MessagesPage) : Bool :=
  pages.any (fun page => page.messages.any (fun m => m.id == aiResponseId))

/-- The sentinel assistant message created on the first streamed token. -/
def mkAiMessage (accResponse ts : String) : ChatMessage :=
  { createdAt := ts, id := aiResponseId, text := accResponse,
    isUserMessage := false }

/-- The per-increment updater passed to `setInfiniteData` in `onSuccess`
(lines 181-224): absent data becomes the empty cache; otherwise, if no
message anywhere in the pages has id `"ai-response"`, a sentinel carrying
the accumulated response is prepended to the first page; if one exists,
the first page's messages are mapped, replacing the text of any message
with that id. The source selects the first page by reference equality
(`page === old.pages[0]`) inside a `map`; cache pages are distinct
objects, so this is the positional first page. -/
def mergeIncrement (accResponse ts : String) :
    Option InfiniteMessages → InfiniteMessages
  | none => { pages := [], pageParams := [] }
  | some old =>
    let isAiResponseCreated := hasAiResponse old.pages
    let updatedPages :=
      match old.pages with
      | [] => []
      | firstPage :: restPages =>
        let updatedMessages :=
          if !isAiResponseCreated then
            mkAiMessage accResponse ts :: firstPage.messages
          else
            firstPage.messages.map (fun m =>
              if m.id == aiResponseId then { m with text := accResponse } else m)
        { firstPage with messages := updatedMessages } :: restPages
    { old with pages := updatedPages }

/-- `if (chunkValue.startsWith("0:")) chunkValue = chunkValue.substring(2)`:
strip the stream-framing marker from a decoded chunk. The two-character
check and drop are done on the character list (both marker characters are
ASCII, so JavaScript's UTF-16 positions coincide with character
positions). -/
def stripFrame (s : String) : String :=
  if s.data.take 2 = ['0', ':'] then String.mk (s.data.drop 2) else s

/-- The read loop of `onSuccess`: each raw chunk is decoded, de-framed and
appended to `accResponse`, and the accumulated text is merged into the
cache via `mergeIncrement`. Returns the accumulated response and the state
after all chunks. -/
def chatStreamChunks (ts : String) (chunks : List String) (st : ChatState) :
    String × ChatState :=
  chunks.foldl
    (fun (p : String × ChatState) c =>
      let acc := p.1 ++ stripFrame c
      (acc, { p.2 with infiniteCache := some (mergeIncrement acc ts p.2.infiniteCache) }))
    ("", st)

/-- Scenario driver for a submit that ends in stream failure: `onMutate`,
then the given chunks merged by the `onSuccess` loop, then `onError` with
the context captured at submit time. (This is charitable to the source: in
the actual code `onError` only fires when `mutationFn` itself rejects,
before any chunk is read; a mid-stream failure inside `onSuccess` triggers
no rollback at all.) -/
def chatSubmitThenFail (submitted newId ts : String) (chunks : List String)
    (st : ChatState) : Except JsError ChatState :=
  match chatOnMutate submitted newId ts st with
  | .error e => .error e
  | .ok (st1, ctx) =>
    let st2 := (chatStreamChunks ts chunks st1).2
    .ok (chatOnError ctx st2)

/-- Number of sentinel (`"ai-response"`) messages across all cached pages. -/
def countSentinels : List MessagesPage → Nat
  | [] => 0
  | p :: rest =>
    p.messages.countP (fun m => m.id == aiResponseId) + countSentinels rest

/-- Sentinel count of a whole cached value. -/
def sentinelCount (d : InfiniteMessages) : Nat :=
  countSentinels d.pages

/-- Iterated application of `mergeIncrement` for a list of accumulated
responses (each paired with its timestamp). -/
def applyIncrements (incs : List (String × String)) (d : InfiniteMessages) :
    InfiniteMessages :=
  incs.foldl (fun c inc => mergeIncrement inc.1 inc.2 (some c)) d

/-- Concrete pre-existing cached message used in the rollback scenario. -/
def exM1 : ChatMessage :=
  { createdAt := "t0", id := "m1", text := "First", isUserMessage := false }

/-- Concrete pre-submit client state: input text `"hi"`, one cached page
holding one message. -/
def exSt0 : ChatState :=
  { message := "hi", backupMessage := "", isLoading := false,
    infiniteCache := some { pages := [{ messages := [exM1] }],
                            pageParams := [none] },
    plainCache := none }

/-- The synthesized optimistic user message of the scenario. -/
def exOptimistic : ChatMessage :=
  { createdAt := "t1", id := "uuid-1", text := "hi", isUserMessage := true }

/-- The state actually reached in the scenario: the paginated cache still
holds the sentinel and the optimistic message, and the flattened list
written to the `{ fileId }` entry includes the optimistic message. -/
def exFinal : ChatState :=
  { message := "hi", backupMessage := "hi", isLoading := true,
    infiniteCache := some
      { pages := [{ messages :=
          [mkAiMessage "Hello!" "t1", exOptimistic, exM1] }],
        pageParams := [none] },
    plainCache := some [exOptimistic, exM1] }

/-! ### Lemmas about the sentinel count -/

/-- If no page reports a sentinel, the sentinel count is zero. -/
lemma countSentinels_eq_zero_of_not_has (pages : List MessagesPage)
    (h : hasAiResponse pages = false) : countSentinels pages = 0 := by
  induction pages with
  | nil => rfl
  | cons p rest ih =>
    simp only [hasAiResponse, List.any_cons, Bool.or_eq_false_iff] at h
    obtain ⟨h1, h2⟩ := h
    have hp : p.messages.countP (fun m => m.id == aiResponseId) = 0 := by
      rw [List.countP_eq_zero]
      intro m hm
      rcases List.any_eq_false.mp h1 m hm with hfalse
      simpa using hfalse
    have hr := ih (by simpa [hasAiResponse] using h2)
    simp [countSentinels, hp, hr]

/-- If the sentinel count is zero, no page reports a sentinel. -/
lemma hasAiResponse_eq_false_of_count_zero (pages : List MessagesPage)
    (h : countSentinels pages = 0) : hasAiResponse pages = false := by
  induction pages with
  | nil => rfl
  | cons p rest ih =>
    simp only [countSentinels, Nat.add_eq_zero] at h
    obtain ⟨h1, h2⟩ := h
    have hp : p.messages.any (fun m => m.id == aiResponseId) = false := by
      rw [List.any_eq_false]
      intro m hm
      have := List.countP_eq_zero.mp h1 m hm
      simpa using this
    have hr := ih h2
    simp [hasAiResponse, List.any_cons, hp]
    simpa [hasAiResponse] using hr

/-- Replacing the text of sentinel messages does not change how many
messages match the sentinel id. -/
lemma countP_update_text (msgs : List ChatMessage) (acc : String) :
    (msgs.map (fun m =>
        if m.id == aiResponseId then { m with text := acc } else m)).countP
      (fun m => m.id == aiResponseId) =
    msgs.countP (fun m => m.id == aiResponseId) := by
  induction msgs with
  | nil => rfl
  | cons m rest ih =>
    simp only [List.map_cons, List.countP_cons, ih]
    congr 1
    by_cases hm : (m.id == aiResponseId) = true
    · simp [hm]
    · simp only [Bool.not_eq_true] at hm
      simp [hm]

/-- With a sentinel already present, a merge step preserves the sentinel
count (it only rewrites text in the first page). -/
lemma sentinelCount_merge_of_has (d : InfiniteMessages) (acc ts : String)
    (h : hasAiResponse d.pages = true) :
    sentinelCount (mergeIncrement acc ts (some d)) = sentinelCount d := by
  obtain ⟨pages, pp⟩ := d
  cases pages with
  | nil => simp [hasAiResponse] at h
  | cons p rest =>
    simp only [mergeIncrement, sentinelCount, h, Bool.not_true,
      Bool.false_eq_true, if_false, countSentinels]
    rw [countP_update_text]

/-- With no sentinel present, a merge step yields at most one sentinel
(exactly one if there is a first page to prepend to). -/
lemma sentinelCount_merge_of_not_has (d : InfiniteMessages) (acc ts : String)
    (h : hasAiResponse d.pages = false) :
    sentinelCount (mergeIncrement acc ts (some d)) ≤ 1 := by
  obtain ⟨pages, pp⟩ := d
  cases pages with
  | nil => simp [mergeIncrement, sentinelCount, countSentinels]
  | cons p rest =>
    have hz := countSentinels_eq_zero_of_not_has (p :: rest) h
    simp only [countSentinels] at hz
    simp only [mergeIncrement, sentinelCount, h, Bool.not_false, if_true,
      countSentinels, List.countP_cons]
    have hid : ((mkAiMessage acc ts).id == aiResponseId) = true := by
      simp [mkAiMessage]
    rw [if_pos hid]
    omega

/-- One merge step keeps the sentinel count at most one. -/
lemma sentinelCount_merge_le (d : InfiniteMessages) (acc ts : String)
    (h : sentinelCount d ≤ 1) :
    sentinelCount (mergeIncrement acc ts (some d)) ≤ 1 := by
  cases hh : hasAiResponse d.pages with
  | false => exact sentinelCount_merge_of_not_has d acc ts hh
  | true => rw [sentinelCount_merge_of_has d acc ts hh]; exact h

/-- Iterated merges keep the sentinel count at most one. -/
lemma sentinelCount_applyIncrements_le (incs : List (String × String))
    (d : InfiniteMessages) (h : sentinelCount d ≤ 1) :
    sentinelCount (applyIncrements incs d) ≤ 1 := by
  induction incs generalizing d with
  | nil => exact h
  | cons inc rest ih =>
    simp only [applyIncrements, List.foldl_cons]
    exact ih _ (sentinelCount_merge_le d inc.1 inc.2 h)

/-- With no sentinel present and a non-empty pages list, the merge step
prepends the sentinel to the head of the first page. -/
lemma mergeIncrement_creates (d : InfiniteMessages) (acc ts : String)
    (h0 : sentinelCount d = 0) (p : MessagesPage) (rest : List MessagesPage)
    (hp : d.pages = p :: rest) :
    (mergeIncrement acc ts (some d)).pages =
      { p with messages := mkAiMessage acc ts :: p.messages } :: rest := by
  have hfalse : hasAiResponse d.pages = false :=
    hasAiResponse_eq_false_of_count_zero d.pages h0
  obtain ⟨pages, pp⟩ := d
  simp only at hp
  subst hp
  simp only at hfalse
  simp [mergeIncrement, hfalse]

/-- **C4**: after each per-increment cache update the cached pages contain
at most one message with the fixed sentinel id `"ai-response"`: a single
merge and any iterated sequence of merges preserve "at most one sentinel";
when no sentinel exists the increment creates it at the head of the first
page; when one exists the increment only rewrites text, leaving the
sentinel count unchanged — never inserting a second copy. -/
theorem mergeIncrement_sentinel_unique (d : InfiniteMessages)
    (acc ts : String) :
    (sentinelCount d ≤ 1 → sentinelCount (mergeIncrement acc ts (some d)) ≤ 1) ∧
    (∀ incs : List (String × String), sentinelCount d ≤ 1 →
      sentinelCount (applyIncrements incs d) ≤ 1) ∧
    (sentinelCount d = 0 → ∀ (p : MessagesPage) (rest : List MessagesPage),
      d.pages = p :: rest →
      (mergeIncrement acc ts (some d)).pages =
        { p with messages := mkAiMessage acc ts :: p.messages } :: rest) ∧
    (hasAiResponse d.pages = true →
      sentinelCount (mergeIncrement acc ts (some d)) = sentinelCount d) :=
  ⟨sentinelCount_merge_le d acc ts,
   fun incs h => sentinelCount_applyIncrements_le incs d h,
   fun h0 p rest hp => mergeIncrement_creates d acc ts h0 p rest hp,
   sentinelCount_merge_of_has d acc ts⟩

/-- Concrete single-page cache used to witness `mergeIncrement_sentinel_unique`. -/
def exD0 : InfiniteMessages :=
  { pages := [{ messages := [exM1] }], pageParams := [none] }

/-- Witness: the sentinel-uniqueness theorem applied at a concrete
sentinel-free one-page cache and two concrete increments. -/
theorem mergeIncrement_sentinel_unique_witness :
    sentinelCount exD0 ≤ 1 ∧
    sentinelCount (mergeIncrement "Hel" "t1" (some exD0)) ≤ 1 ∧
    sentinelCount (applyIncrements [("Hel", "t1"), ("Hello", "t1")] exD0) ≤ 1 ∧
    (mergeIncrement "Hel" "t1" (some exD0)).pages =
      [{ messages := [mkAiMessage "Hel" "t1", exM1] }] :=
  ⟨by decide,
   (mergeIncrement_sentinel_unique exD0 "Hel" "t1").1 (by decide),
   (mergeIncrement_sentinel_unique exD0 "Hel" "t1").2.1 _ (by decide),
   (mergeIncrement_sentinel_unique exD0 "Hel" "t1").2.2.1 (by decide)
     { messages := [exM1] } [] rfl⟩

/-- **C10** (implicit): the optimistic prepend of `onMutate` is total only
when the cached infinite data is absent or has a non-empty pages list:
absent data yields the empty cache (the optimistic message is dropped), a
present but zero-page cache throws (reading `.messages` of
`old.pages[0]!`, which is `undefined`), and a non-empty cache gets the
message prepended to the first page. -/
theorem addOptimisticMessage_partiality (m : ChatMessage)
    (pp : List (Option String)) (p : MessagesPage)
    (rest : List MessagesPage) :
    addOptimisticMessage m none = .ok { pages := [], pageParams := [] } ∧
    addOptimisticMessage m (some { pages := [], pageParams := pp }) =
      .error .typeError ∧
    addOptimisticMessage m (some { pages := p :: rest, pageParams := pp }) =
      .ok { pages := { p with messages := m :: p.messages } :: rest,
            pageParams := pp } :=
  ⟨rfl, rfl, rfl⟩

/-- **C3** (code divergence): a submit that ends in stream failure does
*not* leave the paginated cache equal to the submit-time snapshot. The
input text is restored from the backup, but `onError` writes the flattened
message list (which even contains the optimistic user message, due to the
in-place page mutation in `onMutate`) to the non-paginated `{ fileId }`
cache entry via `setData`, while the paginated entry keeps the optimistic
user message and the `"ai-response"` sentinel. Evaluated on a concrete
one-page cache with three streamed chunks. -/
theorem chat_stream_failure_no_rollback :
    chatSubmitThenFail "hi" "uuid-1" "t1" ["0:Hel", "0:lo", "0:!"] exSt0 =
      .ok exFinal ∧
    exFinal.message = "hi" ∧
    exFinal.infiniteCache ≠ exSt0.infiniteCache ∧
    exFinal.infiniteCache = some
      { pages := [{ messages := [mkAiMessage "Hello!" "t1", exOptimistic, exM1] }],
        pageParams := [none] } ∧
    exFinal.plainCache = some [exOptimistic, exM1] :=
  ⟨by rfl, rfl, by decide, rfl, rfl⟩

/-! ## Byte truncation (`truncateStringByBytes`, `core.ts` lines 204-207)

`new TextDecoder("utf-8").decode(new TextEncoder().encode(str).slice(0, bytes))`.

A JavaScript string fed to `TextEncoder` is modeled as its sequence of
Unicode scalar values (`List Char`; `TextEncoder` replaces unpaired
surrogates before encoding, so its effective input is always a scalar
sequence). The decoder is the WHATWG UTF-8 decoder in replacement mode
(the `TextDecoder` default): it never throws, emits U+FFFD for each
maximal ill-formed subsequence, and strips a leading byte-order mark. -/

/-- UTF-8 byte length of one scalar value. -/
def cpUtf8Len (cp : Nat) : Nat :=
  if cp ≤ 0x7F then 1
  else if cp ≤ 0x7FF then 2
  else if cp ≤ 0xFFFF then 3
  else 4

/-- UTF-8 encoding of one scalar value, as emitted by `TextEncoder`. -/
def encodeChar (c : Char) : List Nat :=
  let cp := c.toNat
  if cp ≤ 0x7F then [cp]
  else if cp ≤ 0x7FF then [0xC0 + cp / 64, 0x80 + cp % 64]
  else if cp ≤ 0xFFFF then
    [0xE0 + cp / 4096, 0x80 + (cp / 64) % 64, 0x80 + cp % 64]
  else
    [0xF0 + cp / 262144, 0x80 + (cp / 4096) % 64, 0x80 + (cp / 64) % 64,
     0x80 + cp % 64]

/-- `TextEncoder().encode`: UTF-8 bytes of the whole string. -/
def encodeString (s : List Char) : List Nat :=
  (s.map encodeChar).flatten

/-- State of the WHATWG UTF-8 decoder: expecting a lead byte, or inside a
multi-byte sequence with `needed` continuation bytes in total, `seen`
already consumed, the partial code point `cp`, and the admissible range
`lower..upper` for the next byte. -/
inductive DecoderState where
  | start
  | cont (needed seen cp lower upper : Nat)
  deriving Repr, DecidableEq

/-- U+FFFD, emitted for each maximal ill-formed subsequence. -/
def replacementChar : Nat := 0xFFFD

/-- WHATWG UTF-8 decoder handler for a byte in the `start` state: emit a
code point (an ASCII byte, or a replacement for an invalid lead byte) or
enter a continuation state with the boundaries the standard prescribes
for `E0`/`ED`/`F0`/`F4` leads. -/
def startByte (b : Nat) : Nat ⊕ DecoderState :=
  if b ≤ 0x7F then .inl b
  else if 0xC2 ≤ b ∧ b ≤ 0xDF then .inr (.cont 1 0 (b % 32) 0x80 0xBF)
  else if 0xE0 ≤ b ∧ b ≤ 0xEF then
    .inr (.cont 2 0 (b % 16) (if b = 0xE0 then 0xA0 else 0x80)
                             (if b = 0xED then 0x9F else 0xBF))
  else if 0xF0 ≤ b ∧ b ≤ 0xF4 then
    .inr (.cont 3 0 (b % 8) (if b = 0xF0 then 0x90 else 0x80)
                            (if b = 0xF4 then 0x8F else 0xBF))
  else .inl replacementChar

/-- The WHATWG UTF-8 decoder in replacement mode. An out-of-range
continuation byte emits a replacement and reprocesses the byte in the
`start` state (inlined through `startByte` so the recursion stays
structural); end of input inside a sequence emits one replacement. -/
def utf8DecodeLoop : DecoderState → List Nat → List Nat
  | .start, [] => []
  | .cont _ _ _ _ _, [] => [replacementChar]
  | .start, b :: bs =>
    (match startByte b with
     | .inl cp => cp :: utf8DecodeLoop .start bs
     | .inr st => utf8DecodeLoop st bs)
  | .cont needed seen cp lower upper, b :: bs =>
    if b < lower ∨ upper < b then
      replacementChar ::
        (match startByte b with
         | .inl cp2 => cp2 :: utf8DecodeLoop .start bs
         | .inr st => utf8DecodeLoop st bs)
    else
      let cp2 := cp * 64 + (b % 64)
      if seen + 1 = needed then cp2 :: utf8DecodeLoop .start bs
      else utf8DecodeLoop (.cont needed (seen + 1) cp2 0x80 0xBF) bs

/-- `TextDecoder("utf-8").decode` with default options: strip a complete
leading byte-order mark (`EF BB BF`), then run the replacement-mode
decoder. Total — the non-fatal decoder never throws. -/
def textDecoderDecode (bytes : List Nat) : List Nat :=
  match bytes with
  | b0 :: b1 :: b2 :: rest =>
    if b0 = 0xEF ∧ b1 = 0xBB ∧ b2 = 0xBF then utf8DecodeLoop .start rest
    else utf8DecodeLoop .start (b0 :: b1 :: b2 :: rest)
  | other => utf8DecodeLoop .start other

/-- `truncateStringByBytes` (`core.ts` lines 204-207): encode, slice the
first `bytes` bytes, decode. The result is the decoded scalar sequence. -/
def truncateStringByBytes (str : List Char) (bytes : Nat) : List Nat :=
  textDecoderDecode ((encodeString str).take bytes)

/-- UTF-8 byte length of a decoded scalar sequence. -/
def utf8ByteLen (cps : List Nat) : Nat :=
  (cps.map cpUtf8Len).sum

/-! ### Decoder/encoder lemmas -/

/-- A `Char` is a Unicode scalar value: below the surrogate block or
between it and `0x110000`. -/
lemma char_valid_range (c : Char) :
    c.toNat < 0xD800 ∨ (0xDFFF < c.toNat ∧ c.toNat < 0x110000) := by
  have h := c.valid
  simpa [UInt32.isValidChar, Nat.isValidChar, Char.toNat] using h

/-- The encoder emits exactly `cpUtf8Len` bytes per character. -/
lemma encodeChar_length (c : Char) :
    (encodeChar c).length = cpUtf8Len c.toNat := by
  simp only [encodeChar, cpUtf8Len]
  split_ifs <;> rfl

lemma utf8DecodeLoop_cont_nil (needed seen cp lower upper : Nat) :
    utf8DecodeLoop (.cont needed seen cp lower upper) [] = [replacementChar] :=
  rfl

lemma decode_ascii (b : Nat) (hb : b ≤ 0x7F) (bs : List Nat) :
    utf8DecodeLoop .start (b :: bs) = b :: utf8DecodeLoop .start bs := by
  simp [utf8DecodeLoop, startByte, hb]

lemma startByte_two (b : Nat) (h : 0xC2 ≤ b ∧ b ≤ 0xDF) :
    startByte b = .inr (.cont 1 0 (b % 32) 0x80 0xBF) := by
  unfold startByte
  rw [if_neg (by omega), if_pos h]

lemma startByte_three (b : Nat) (h : 0xE0 ≤ b ∧ b ≤ 0xEF) :
    startByte b = .inr (.cont 2 0 (b % 16)
      (if b = 0xE0 then 0xA0 else 0x80) (if b = 0xED then 0x9F else 0xBF)) := by
  unfold startByte
  rw [if_neg (by omega), if_neg (by omega), if_pos h]

lemma startByte_four (b : Nat) (h : 0xF0 ≤ b ∧ b ≤ 0xF4) :
    startByte b = .inr (.cont 3 0 (b % 8)
      (if b = 0xF0 then 0x90 else 0x80) (if b = 0xF4 then 0x8F else 0xBF)) := by
  unfold startByte
  rw [if_neg (by omega), if_neg (by omega), if_neg (by omega), if_pos h]

/-- Processing an admissible continuation byte. -/
lemma utf8DecodeLoop_cont_step (needed seen cp lower upper b : Nat)
    (bs : List Nat) (hin : lower ≤ b ∧ b ≤ upper) :
    utf8DecodeLoop (.cont needed seen cp lower upper) (b :: bs) =
      if seen + 1 = needed then
        (cp * 64 + b % 64) :: utf8DecodeLoop .start bs
      else
        utf8DecodeLoop (.cont needed (seen + 1) (cp * 64 + b % 64) 0x80 0xBF) bs := by
  simp only [utf8DecodeLoop]
  rw [if_neg (by omega)]

/-- One unfolding of the decoder on a lead byte. -/
lemma utf8DecodeLoop_start_cons (b : Nat) (bs : List Nat) :
    utf8DecodeLoop .start (b :: bs) =
      (match startByte b with
       | .inl cp => cp :: utf8DecodeLoop .start bs
       | .inr st => utf8DecodeLoop st bs) :=
  rfl

lemma decode_two (b0 b1 : Nat) (h0 : 0xC2 ≤ b0 ∧ b0 ≤ 0xDF)
    (h1 : 0x80 ≤ b1 ∧ b1 ≤ 0xBF) (bs : List Nat) :
    utf8DecodeLoop .start (b0 :: b1 :: bs) =
      ((b0 % 32) * 64 + b1 % 64) :: utf8DecodeLoop .start bs := by
  rw [utf8DecodeLoop_start_cons, startByte_two b0 h0]
  dsimp only
  rw [utf8DecodeLoop_cont_step _ _ _ _ _ _ _ h1, if_pos rfl]

lemma decode_three (b0 b1 b2 : Nat) (h0 : 0xE0 ≤ b0 ∧ b0 ≤ 0xEF)
    (h1 : (if b0 = 0xE0 then 0xA0 else 0x80) ≤ b1 ∧
          b1 ≤ (if b0 = 0xED then 0x9F else 0xBF))
    (h2 : 0x80 ≤ b2 ∧ b2 ≤ 0xBF) (bs : List Nat) :
    utf8DecodeLoop .start (b0 :: b1 :: b2 :: bs) =
      (((b0 % 16) * 64 + b1 % 64) * 64 + b2 % 64) :: utf8DecodeLoop .start bs := by
  rw [utf8DecodeLoop_start_cons, startByte_three b0 h0]
  dsimp only
  rw [utf8DecodeLoop_cont_step _ _ _ _ _ _ _ h1, if_neg (by omega)]
  rw [utf8DecodeLoop_cont_step _ _ _ _ _ _ _ h2, if_pos rfl]

lemma decode_four (b0 b1 b2 b3 : Nat) (h0 : 0xF0 ≤ b0 ∧ b0 ≤ 0xF4)
    (h1 : (if b0 = 0xF0 then 0x90 else 0x80) ≤ b1 ∧
          b1 ≤ (if b0 = 0xF4 then 0x8F else 0xBF))
    (h2 : 0x80 ≤ b2 ∧ b2 ≤ 0xBF) (h3 : 0x80 ≤ b3 ∧ b3 ≤ 0xBF)
    (bs : List Nat) :
    utf8DecodeLoop .start (b0 :: b1 :: b2 :: b3 :: bs) =
      ((((b0 % 8) * 64 + b1 % 64) * 64 + b2 % 64) * 64 + b3 % 64) ::
        utf8DecodeLoop .start bs := by
  rw [utf8DecodeLoop_start_cons, startByte_four b0 h0]
  dsimp only
  rw [utf8DecodeLoop_cont_step _ _ _ _ _ _ _ h1, if_neg (by omega)]
  rw [utf8DecodeLoop_cont_step _ _ _ _ _ _ _ h2, if_neg (by omega)]
  rw [utf8DecodeLoop_cont_step _ _ _ _ _ _ _ h3, if_pos rfl]

/-- Admissible range of the first continuation byte of a three-byte
sequence, for a non-surrogate scalar value. -/
lemma three_byte_b1_range (cp : Nat) (h2 : ¬cp ≤ 0x7FF) (h3 : cp ≤ 0xFFFF)
    (hv : cp < 0xD800 ∨ (0xDFFF < cp ∧ cp < 0x110000)) :
    (if 0xE0 + cp / 4096 = 0xE0 then 0xA0 else 0x80) ≤ 0x80 + (cp / 64) % 64 ∧
    0x80 + (cp / 64) % 64 ≤ (if 0xE0 + cp / 4096 = 0xED then 0x9F else 0xBF) := by
  constructor <;> split <;> omega

/-- Admissible range of the first continuation byte of a four-byte
sequence, for a scalar value below `0x110000`. -/
lemma four_byte_b1_range (cp : Nat) (h3 : ¬cp ≤ 0xFFFF) (hv : cp < 0x110000) :
    (if 0xF0 + cp / 262144 = 0xF0 then 0x90 else 0x80) ≤
      0x80 + (cp / 4096) % 64 ∧
    0x80 + (cp / 4096) % 64 ≤ (if 0xF0 + cp / 262144 = 0xF4 then 0x8F else 0xBF) := by
  constructor <;> split <;> omega

/-- The decoder consumes one well-formed character encoding and emits its
scalar value. -/
lemma decode_encodeChar (c : Char) (rest : List Nat) :
    utf8DecodeLoop .start (encodeChar c ++ rest) =
      c.toNat :: utf8DecodeLoop .start rest := by
  have hv := char_valid_range c
  simp only [encodeChar]
  by_cases h1 : c.toNat ≤ 0x7F
  · rw [if_pos h1]
    simpa using decode_ascii c.toNat h1 rest
  · rw [if_neg h1]
    by_cases h2 : c.toNat ≤ 0x7FF
    · rw [if_pos h2]
      have hd := decode_two (0xC0 + c.toNat / 64) (0x80 + c.toNat % 64)
        ⟨by omega, by omega⟩ ⟨by omega, by omega⟩ rest
      simp only [List.cons_append, List.nil_append] at hd ⊢
      rw [hd]
      congr 1
      omega
    · rw [if_neg h2]
      by_cases h3 : c.toNat ≤ 0xFFFF
      · rw [if_pos h3]
        have hd := decode_three (0xE0 + c.toNat / 4096)
          (0x80 + (c.toNat / 64) % 64) (0x80 + c.toNat % 64)
          ⟨by omega, by omega⟩ (three_byte_b1_range c.toNat h2 h3 hv)
          ⟨by omega, by omega⟩ rest
        simp only [List.cons_append, List.nil_append] at hd ⊢
        rw [hd]
        congr 1
        omega
      · rw [if_neg h3]
        have hv4 : c.toNat < 0x110000 := by omega
        have hd := decode_four (0xF0 + c.toNat / 262144)
          (0x80 + (c.toNat / 4096) % 64) (0x80 + (c.toNat / 64) % 64)
          (0x80 + c.toNat % 64)
          ⟨by omega, by omega⟩ (four_byte_b1_range c.toNat h3 hv4)
          ⟨by omega, by omega⟩ ⟨by omega, by omega⟩ rest
        simp only [List.cons_append, List.nil_append] at hd ⊢
        rw [hd]
        congr 1
        omega

/-- Decoding the full encoding of a string recovers its scalar values. -/
lemma decode_encodeString (s : List Char) :
    utf8DecodeLoop .start (encodeString s) = s.map Char.toNat := by
  induction s with
  | nil => rfl
  | cons c s ih =>
    have henc : encodeString (c :: s) = encodeChar c ++ encodeString s := by
      simp [encodeString]
    rw [henc, decode_encodeChar, ih, List.map_cons]

/-- A lead byte followed by end of input yields one replacement. -/
lemma decode_partial_lead (b needed seen cp lower upper : Nat)
    (h : startByte b = .inr (.cont needed seen cp lower upper)) :
    utf8DecodeLoop .start [b] = [replacementChar] := by
  rw [utf8DecodeLoop_start_cons, h]
  rfl

/-- A three- or four-byte lead plus one admissible continuation byte,
then end of input, yields one replacement. -/
lemma decode_partial_lead1 (needed cp lower upper b : Nat)
    (hn : needed ≠ 1) (hin : lower ≤ b ∧ b ≤ upper) :
    utf8DecodeLoop (.cont needed 0 cp lower upper) [b] = [replacementChar] := by
  rw [utf8DecodeLoop_cont_step _ _ _ _ _ _ _ hin, if_neg (by omega)]
  rfl

/-- A four-byte lead plus two admissible continuation bytes, then end of
input, yields one replacement. -/
lemma decode_partial_lead2 (cp lower upper b b2 : Nat)
    (hin : lower ≤ b ∧ b ≤ upper) (hin2 : 0x80 ≤ b2 ∧ b2 ≤ 0xBF) :
    utf8DecodeLoop (.cont 3 0 cp lower upper) [b, b2] = [replacementChar] := by
  rw [utf8DecodeLoop_cont_step _ _ _ _ _ _ _ hin, if_neg (by omega)]
  rw [utf8DecodeLoop_cont_step _ _ _ _ _ _ _ hin2, if_neg (by omega)]
  rfl

/-- Truncating a well-formed character encoding strictly inside the
character decodes to exactly one replacement character. -/
lemma decode_encodeChar_clipped (c : Char) (n : Nat) (h1 : 1 ≤ n)
    (h2 : n < (encodeChar c).length) :
    utf8DecodeLoop .start ((encodeChar c).take n) = [replacementChar] := by
  have hv := char_valid_range c
  have hlen := encodeChar_length c
  simp only [encodeChar] at hlen h2 ⊢
  by_cases hc1 : c.toNat ≤ 0x7F
  · rw [if_pos hc1] at h2
    simp at h2
    omega
  · rw [if_neg hc1] at h2 ⊢
    by_cases hc2 : c.toNat ≤ 0x7FF
    · rw [if_pos hc2] at h2 ⊢
      have hn : n = 1 := by simp at h2; omega
      subst hn
      simp only [List.take_succ_cons, List.take_zero]
      exact decode_partial_lead _ _ _ _ _ _ (startByte_two _ ⟨by omega, by omega⟩)
    · rw [if_neg hc2] at h2 ⊢
      by_cases hc3 : c.toNat ≤ 0xFFFF
      · rw [if_pos hc3] at h2 ⊢
        have hb1 := three_byte_b1_range c.toNat hc2 hc3 hv
        have hn : n = 1 ∨ n = 2 := by simp at h2; omega
        rcases hn with hn | hn <;> subst hn
        · simp only [List.take_succ_cons, List.take_zero]
          exact decode_partial_lead _ _ _ _ _ _ (startByte_three _ ⟨by omega, by omega⟩)
        · simp only [List.take_succ_cons, List.take_zero]
          rw [utf8DecodeLoop_start_cons,
            startByte_three _ ⟨by omega, by omega⟩]
          dsimp only
          exact decode_partial_lead1 _ _ _ _ _ (by omega) hb1
      · rw [if_neg hc3] at h2 ⊢
        have hv4 : c.toNat < 0x110000 := by omega
        have hb1 := four_byte_b1_range c.toNat hc3 hv4
        have hn : n = 1 ∨ n = 2 ∨ n = 3 := by simp at h2; omega
        rcases hn with hn | hn | hn <;> subst hn
        · simp only [List.take_succ_cons, List.take_zero]
          exact decode_partial_lead _ _ _ _ _ _ (startByte_four _ ⟨by omega, by omega⟩)
        · simp only [List.take_succ_cons, List.take_zero]
          rw [utf8DecodeLoop_start_cons,
            startByte_four _ ⟨by omega, by omega⟩]
          dsimp only
          exact decode_partial_lead1 _ _ _ _ _ (by omega) hb1
        · simp only [List.take_succ_cons, List.take_zero]
          rw [utf8DecodeLoop_start_cons,
            startByte_four _ ⟨by omega, by omega⟩]
          dsimp only
          exact decode_partial_lead2 _ _ _ _ _ hb1 ⟨by omega, by omega⟩

/-- Byte-length bound for the plain (no byte-order-mark handling)
replacement-mode decode of any `n`-byte slice of a well-formed encoding:
at most `n` bytes of intact characters plus one replacement character
(3 bytes) in place of a clipped sequence (at least 1 byte). -/
lemma utf8ByteLen_decode_take (s : List Char) (n : Nat) :
    utf8ByteLen (utf8DecodeLoop .start ((encodeString s).take n)) ≤ n + 2 := by
  induction s generalizing n with
  | nil => simp [encodeString, utf8ByteLen, utf8DecodeLoop]
  | cons c s ih =>
    have henc : encodeString (c :: s) = encodeChar c ++ encodeString s := by
      simp [encodeString]
    rw [henc, List.take_append_eq_append_take]
    by_cases hn : (encodeChar c).length ≤ n
    · rw [List.take_of_length_le hn, decode_encodeChar]
      have hlen := encodeChar_length c
      have hcp : cpUtf8Len c.toNat ≤ n := hlen ▸ hn
      have hrec := ih (n - (encodeChar c).length)
      simp only [utf8ByteLen, List.map_cons, List.sum_cons] at hrec ⊢
      omega
    · push_neg at hn
      have hz : n - (encodeChar c).length = 0 := by omega
      rw [hz, List.take_zero, List.append_nil]
      by_cases h0 : n = 0
      · subst h0
        simp [utf8ByteLen, utf8DecodeLoop]
      · rw [decode_encodeChar_clipped c n (by omega) hn]
        simp only [utf8ByteLen, List.map_cons, List.map_nil, List.sum_cons,
          List.sum_nil, replacementChar, cpUtf8Len]
        norm_num
        omega

/-- Decoding a byte-order mark in front of a byte list emits `U+FEFF`. -/
lemma decode_bom (r : List Nat) :
    utf8DecodeLoop .start (0xEF :: 0xBB :: 0xBF :: r) =
      0xFEFF :: utf8DecodeLoop .start r := by
  rfl

/-- Byte-order-mark stripping never lengthens the decoded output. -/
lemma textDecoderDecode_le_decode (bs : List Nat) :
    utf8ByteLen (textDecoderDecode bs) ≤
      utf8ByteLen (utf8DecodeLoop .start bs) := by
  rcases bs with _ | ⟨b0, _ | ⟨b1, _ | ⟨b2, rest⟩⟩⟩ <;>
    simp only [textDecoderDecode]
  · exact le_refl _
  · exact le_refl _
  · exact le_refl _
  · split
    · next h =>
      obtain ⟨rfl, rfl, rfl⟩ := h
      rw [decode_bom]
      simp only [utf8ByteLen, List.map_cons, List.sum_cons]
      omega
    · exact le_refl _

/-- **C5** (amended bound): truncating any string to any byte budget `N`
returns a string whose UTF-8 encoding is at most `N + 2` bytes, and the
operation is total (the replacement-mode decoder never throws). The slack
of 2 comes from `TextDecoder` replacing a clipped trailing multi-byte
sequence (at least 1 byte) with `U+FFFD` (3 bytes). -/
theorem truncateStringByBytes_byte_bound (str : List Char) (bytes : Nat) :
    utf8ByteLen (truncateStringByBytes str bytes) ≤ bytes + 2 :=
  le_trans (textDecoderDecode_le_decode _) (utf8ByteLen_decode_take str bytes)

/-- **C5** counterexample to the literal claim: truncating `"é"` to 1 byte
keeps the lead byte `C3` of the two-byte encoding; the decoder replaces it
with `U+FFFD`, whose UTF-8 encoding is 3 bytes — more than the 1-byte
budget. -/
theorem truncateStringByBytes_exceeds_budget :
    ¬ utf8ByteLen (truncateStringByBytes ['é'] 1) ≤ 1 := by
  decide

/-! ## Ingestion pipeline (`src/app/api/uploadthing/core.ts`)

External collaborators (network fetch + `PDFLoader`, the
`RecursiveCharacterTextSplitter`, the `js-md5` hash, and the Gemini
embedding call) are passed in as an environment of function parameters;
their failures are `Except` errors, matching the `try`/`catch` in the
source. The Prisma `file` table is an explicit row list, and Pinecone
upserts are collected as events. -/

/-- A rejected external call (fetch/parse, embedding, completion, vector
index). -/
inductive UpstreamError where
  | failure
  deriving Repr, DecidableEq

/-- `convertToAscii` (`src/lib/utils.ts`): remove every non-ASCII
character (`replace(/[^\x00-\x7F]+/g, "")`). -/
def convertToAscii (inputString : String) : String :=
  String.mk (inputString.data.filter (fun c => c.toNat ≤ 0x7F))

/-- `pageContent.replace(/\n/g, "")`: strip embedded newlines. -/
def stripNewlines (s : String) : String :=
  String.mk (s.data.filter (fun c => c ≠ '\n'))

/-- `{ pageContent, metadata: { loc: { pageNumber } } }` as produced by
`PDFLoader`. -/
structure PageLoc where
  pageNumber : Nat
  deriving Repr, DecidableEq

structure PageMetadata where
  loc : PageLoc
  deriving Repr, DecidableEq

structure PDFPage where
  pageContent : String
  metadata : PageMetadata
  deriving Repr, DecidableEq

/-- A chunk produced by `prepareDocument`: split page text plus metadata
`{ pageNumber, text }`, where `text` is the byte-truncated excerpt (held
as the decoded scalar values `truncateStringByBytes` yields). -/
structure ChunkDoc where
  pageContent : String
  pageNumber : Nat
  text : List Nat
  deriving Repr, DecidableEq

/-- `prepareDocument` (`core.ts` lines 152-168): strip newlines, build the
page-level metadata (page number and the 3600-byte excerpt of the whole
stripped page), then split through the chunk splitter (chunk size 5000);
every resulting chunk carries the page's metadata. The third-party
recursive splitter is a collaborator parameter `splitter chunkSize text`. -/
def prepareDocument (splitter : Nat → String → List String)
    (page : PDFPage) : List ChunkDoc :=
  let pageContent := stripNewlines page.pageContent
  let excerpt := truncateStringByBytes pageContent.data 3600
  (splitter 5000 pageContent).map (fun chunk =>
    { pageContent := chunk,
      pageNumber := page.metadata.loc.pageNumber,
      text := excerpt })

/-- A Pinecone vector record `{ id, values, metadata: { text, pageNumber } }`. -/
structure PineconeRecord where
  id : String
  values : List Int
  metadataText : List Nat
  metadataPageNumber : Nat
  deriving Repr, DecidableEq

/-- `embedDocument` (`core.ts` lines 177-192): embed the chunk text, then
use `md5(doc.pageContent)` as the record id; metadata carries the excerpt
and page number. A rejected embedding call is rethrown. -/
def embedDocument (md5 : String → String)
    (getEmbeddings : String → Except UpstreamError (List Int))
    (doc : ChunkDoc) : Except UpstreamError PineconeRecord :=
  match getEmbeddings doc.pageContent with
  | .error e => .error e
  | .ok embeddings =>
    .ok { id := md5 doc.pageContent,
          values := embeddings,
          metadataText := doc.text,
          metadataPageNumber := doc.pageNumber }

/-- `Promise.all` over fallible calls: the first rejection rejects the
whole batch. -/
def mapExcept {α β : Type} (f : α → Except UpstreamError β) :
    List α → Except UpstreamError (List β)
  | [] => .ok []
  | a :: as =>
    match f a with
    | .error e => .error e
    | .ok b =>
      match mapExcept f as with
      | .error e => .error e
      | .ok bs => .ok (b :: bs)

/-- A namespace of the vector index: a partial map from record id to the
stored record. -/
def Namespace : Type := String → Option PineconeRecord

/-- Upsert of one record: overwrite whatever is stored under its id. -/
def upsertRecord (m : Namespace) (r : PineconeRecord) : Namespace :=
  fun k => if k = r.id then some r else m k

/-- `namespace.upsert(records)`: records applied in order (last write with
a given id wins). -/
def upsertBatch (m : Namespace) (rs : List PineconeRecord) : Namespace :=
  rs.foldl upsertRecord m

/-- Prisma `File` row (`key`, `name`, `userId`, `url`, `uploadStatus`). -/
inductive UploadStatus where
  | PENDING | PROCESSING | SUCCESS | FAILED
  deriving Repr, DecidableEq

structure FileRow where
  id : String
  key : String
  name : String
  userId : String
  url : String
  uploadStatus : UploadStatus
  deriving Repr, DecidableEq

/-- The Prisma `file` table. -/
structure FilesDB where
  rows : List FileRow
  deriving Repr, DecidableEq

/-- `db.file.findFirst({ where: { key } })`. -/
def findFirstByKey (db : FilesDB) (key : String) : Option FileRow :=
  db.rows.find? (fun f => f.key == key)

/-- `db.file.create`: append a row (the fresh cuid is supplied by the
caller, standing for Prisma's id generation). -/
def createFile (db : FilesDB) (id key name userId url : String)
    (status : UploadStatus) : FileRow × FilesDB :=
  let row : FileRow :=
    { id := id, key := key, name := name, userId := userId, url := url,
      uploadStatus := status }
  (row, { rows := db.rows ++ [row] })

/-- `db.file.update({ data: { uploadStatus }, where: { id } })`. -/
def updateStatus (db : FilesDB) (id : String) (status : UploadStatus) :
    FilesDB :=
  { rows := db.rows.map (fun f =>
      if f.id == id then { f with uploadStatus := status } else f) }

/-- The middleware metadata: caller id and subscription state (only
`isSubscribed` is consulted by `onUploadComplete`). -/
structure UserMeta where
  userId : String
  isSubscribed : Bool
  deriving Repr, DecidableEq

/-- The upload-transport payload `{ key, name, url }`. -/
structure UploadedFile where
  key : String
  name : String
  url : String
  deriving Repr, DecidableEq

/-- External collaborators and static plan data for ingestion.
`fetchParse` is `fetch(url)` + `blob` + `PDFLoader.load`;
`freePagesPerPdf`/`proPagesPerPdf` are the `PLANS` page ceilings from
`@/config/stripe`, kept abstract as the table's values are static
configuration. -/
structure IngestEnv where
  fetchParse : String → Except UpstreamError (List PDFPage)
  splitter : Nat → String → List String
  md5 : String → String
  getEmbeddings : String → Except UpstreamError (List Int)
  freePagesPerPdf : Nat
  proPagesPerPdf : Nat

/-- `onUploadComplete` (`core.ts` lines 59-133). Returns the updated file
table and the list of namespace upsert events. Faithful to the source
control flow: an existing key returns immediately; a new row is created
in `PROCESSING`; parse failure is caught and marks `FAILED`; a page count
over the caller's plan ceiling marks `FAILED` **but execution falls
through** to embedding, upserting, and finally marking `SUCCESS`; an
embedding rejection is caught and marks `FAILED`. -/
def onUploadComplete (env : IngestEnv) (metadata : UserMeta)
    (file : UploadedFile) (freshId : String) (db : FilesDB) :
    FilesDB × List (String × List PineconeRecord) :=
  match findFirstByKey db file.key with
  | some _ => (db, [])
  | none =>
    let created := createFile db freshId file.key file.name metadata.userId
      file.url .PROCESSING
    let createdFile := created.1
    let db1 := created.2
    match env.fetchParse file.url with
    | .error _ => (updateStatus db1 createdFile.id .FAILED, [])
    | .ok pageLevelDocs =>
      let pagesAmt := pageLevelDocs.length
      let isSubscribed := metadata.isSubscribed
      let isProExceeded := pagesAmt > env.proPagesPerPdf
      let isFreeExceeded := pagesAmt > env.freePagesPerPdf
      let db2 :=
        if (isSubscribed && isProExceeded) || (!isSubscribed && isFreeExceeded)
        then updateStatus db1 createdFile.id .FAILED
        else db1
      let documents := (pageLevelDocs.map (prepareDocument env.splitter)).flatten
      match mapExcept (embedDocument env.md5 env.getEmbeddings) documents with
      | .error _ => (updateStatus db2 createdFile.id .FAILED, [])
      | .ok vectors =>
        (updateStatus db2 createdFile.id .SUCCESS,
         [(convertToAscii createdFile.id, vectors)])

/-- Upload status of the row with the given id, if present. -/
def statusOf (db : FilesDB) (id : String) : Option UploadStatus :=
  (db.rows.find? (fun f => f.id == id)).map (·.uploadStatus)

/-- Number of rows carrying the given storage key. -/
def countKey (db : FilesDB) (key : String) : Nat :=
  db.rows.countP (fun f => f.key == key)

/-! ### Ingestion lemmas -/

/-- `countP` is unchanged by a map that preserves the predicate. -/
lemma countP_map_of_preserve {α : Type} (l : List α) (f : α → α)
    (p : α → Bool) (h : ∀ a, p (f a) = p a) :
    (l.map f).countP p = l.countP p := by
  induction l with
  | nil => rfl
  | cons a l ih => simp only [List.map_cons, List.countP_cons, ih, h]

/-- Status updates do not change how many rows carry a key. -/
lemma countKey_updateStatus (db : FilesDB) (id : String)
    (st : UploadStatus) (key : String) :
    countKey (updateStatus db id st) key = countKey db key := by
  obtain ⟨rows⟩ := db
  simp only [countKey, updateStatus]
  exact countP_map_of_preserve _ _ _ (fun f => by
    by_cases hf : (f.id == id) = true <;> simp [hf])

/-- Creating a row with a key adds exactly one row with that key. -/
lemma countKey_createFile (db : FilesDB) (id key name userId url : String)
    (st : UploadStatus) :
    countKey (createFile db id key name userId url st).2 key =
      countKey db key + 1 := by
  simp [createFile, countKey, List.countP_append]

/-- An existing row with the key makes `onUploadComplete` a no-op. -/
lemma onUploadComplete_noop (env : IngestEnv) (meta : UserMeta)
    (file : UploadedFile) (freshId : String) (db : FilesDB) (row : FileRow)
    (h : findFirstByKey db file.key = some row) :
    onUploadComplete env meta file freshId db = (db, []) := by
  unfold onUploadComplete
  rw [h]

/-- Without an existing row, every branch of `onUploadComplete` leaves
exactly one more row with the key (the created row persists through every
status transition). -/
lemma onUploadComplete_adds_one (env : IngestEnv) (meta : UserMeta)
    (file : UploadedFile) (freshId : String) (db : FilesDB)
    (h : findFirstByKey db file.key = none) :
    countKey (onUploadComplete env meta file freshId db).1 file.key =
      countKey db file.key + 1 := by
  unfold onUploadComplete
  rw [h]
  dsimp only
  cases hf : env.fetchParse file.url with
  | error e =>
    dsimp only
    rw [countKey_updateStatus, countKey_createFile]
  | ok pages =>
    dsimp only
    cases hm : mapExcept (embedDocument env.md5 env.getEmbeddings)
        ((pages.map (prepareDocument env.splitter)).flatten) with
    | error e =>
      dsimp only
      rw [countKey_updateStatus]
      split
      · rw [countKey_updateStatus, countKey_createFile]
      · rw [countKey_createFile]
    | ok vectors =>
      dsimp only
      rw [countKey_updateStatus]
      split
      · rw [countKey_updateStatus, countKey_createFile]
      · rw [countKey_createFile]

/-- A positive key count means the existence check fires. -/
lemma countKey_pos_find (db : FilesDB) (key : String)
    (h : 0 < countKey db key) : findFirstByKey db key ≠ none := by
  intro hn
  simp only [findFirstByKey, List.find?_eq_none] at hn
  have hz : countKey db key = 0 :=
    List.countP_eq_zero.mpr (fun f hf => by simpa using hn f hf)
  omega

/-- Upserting keys outside a batch's ids reads through to the base map. -/
lemma upsertBatch_apply_notin (m : Namespace) (rs : List PineconeRecord)
    (k : String) (h : ∀ r ∈ rs, k ≠ r.id) : upsertBatch m rs k = m k := by
  induction rs generalizing m with
  | nil => rfl
  | cons r rs ih =>
    simp only [upsertBatch, List.foldl_cons] at ih ⊢
    rw [ih (upsertRecord m r) (fun r' hr' => h r' (List.mem_cons_of_mem _ hr'))]
    simp [upsertRecord, h r (List.mem_cons_self r rs)]

/-- A batch upsert only depends on the base map outside the batch ids. -/
lemma upsertBatch_congr (m1 m2 : Namespace) (rs : List PineconeRecord)
    (h : ∀ k, (∀ r ∈ rs, k ≠ r.id) → m1 k = m2 k) :
    upsertBatch m1 rs = upsertBatch m2 rs := by
  induction rs generalizing m1 m2 with
  | nil => funext k; exact h k (by simp)
  | cons r rs ih =>
    simp only [upsertBatch, List.foldl_cons] at ih ⊢
    apply ih
    intro k hk
    simp only [upsertRecord]
    by_cases hkr : k = r.id
    · rw [if_pos hkr, if_pos hkr]
    · rw [if_neg hkr, if_neg hkr]
      refine h k (fun r' hr' => ?_)
      rcases List.mem_cons.mp hr' with h1 | h1
      · rw [h1]; exact hkr
      · exact hk r' h1

/-- **C6**: the vector-record identifier is the deterministic content hash
of the chunk text: equal text gives equal ids (whatever the hash and
embedder collaborators are), on success the id literally is
`md5(pageContent)`, and re-upserting the same record batch leaves the
namespace map unchanged (re-ingesting unchanged content is a no-op on the
record set). -/
theorem content_hash_dedup (md5F : String → String)
    (emb : String → Except UpstreamError (List Int)) (d1 d2 : ChunkDoc)
    (ns : Namespace) (rs : List PineconeRecord) :
    (d1.pageContent = d2.pageContent →
      Except.map (fun r => r.id) (embedDocument md5F emb d1) =
        Except.map (fun r => r.id) (embedDocument md5F emb d2)) ∧
    (∀ r : PineconeRecord, embedDocument md5F emb d1 = .ok r →
      r.id = md5F d1.pageContent) ∧
    upsertBatch (upsertBatch ns rs) rs = upsertBatch ns rs := by
  refine ⟨fun h => ?_, fun r hr => ?_, ?_⟩
  · unfold embedDocument
    rw [h]
    cases hemb : emb d2.pageContent <;> simp [hemb, Except.map]
  · unfold embedDocument at hr
    cases hemb : emb d1.pageContent with
    | error e => rw [hemb] at hr; cases hr
    | ok v =>
      rw [hemb] at hr
      cases hr
      rfl
  · exact upsertBatch_congr _ _ rs
      (fun k hk => upsertBatch_apply_notin ns rs k hk)

/-- Chunks with identical text and differing metadata, used to witness
`content_hash_dedup`. -/
def exChunk1 : ChunkDoc :=
  { pageContent := "Paris is the capital.", pageNumber := 1, text := [] }

def exChunk2 : ChunkDoc :=
  { pageContent := "Paris is the capital.", pageNumber := 2, text := [80] }

def exRecord : PineconeRecord :=
  { id := "Paris is the capital.", values := [1], metadataText := [],
    metadataPageNumber := 1 }

/-- Witness: `content_hash_dedup` applied at two concrete chunks with
equal text under concrete hash/embedder collaborators. -/
theorem content_hash_dedup_witness :
    exChunk1.pageContent = exChunk2.pageContent ∧
    Except.map (fun r => r.id)
        (embedDocument (fun s => s) (fun _ => .ok [(1 : Int)]) exChunk1) =
      Except.map (fun r => r.id)
        (embedDocument (fun s => s) (fun _ => .ok [(1 : Int)]) exChunk2) ∧
    exRecord.id = "Paris is the capital." :=
  ⟨rfl,
   (content_hash_dedup (fun s => s) (fun _ => .ok [(1 : Int)]) exChunk1
      exChunk2 (fun _ => none) []).1 rfl,
   (content_hash_dedup (fun s => s) (fun _ => .ok [(1 : Int)]) exChunk1
      exChunk2 (fun _ => none) []).2.1 exRecord rfl⟩

/-- **C7**: a second upload-complete with a known storage key is a no-op
(the database and the upsert event list are untouched), and processing
the same key twice sequentially from a key-free database leaves exactly
one row with that key. -/
theorem upload_key_idempotent (env : IngestEnv) (meta : UserMeta)
    (file : UploadedFile) (id1 id2 : String) (db : FilesDB) :
    (findFirstByKey db file.key ≠ none →
      onUploadComplete env meta file id1 db = (db, [])) ∧
    (findFirstByKey db file.key = none →
      countKey ((onUploadComplete env meta file id2
        (onUploadComplete env meta file id1 db).1).1) file.key = 1) := by
  constructor
  · intro h
    obtain ⟨row, hrow⟩ := Option.ne_none_iff_exists'.mp h
    exact onUploadComplete_noop env meta file id1 db row hrow
  · intro h
    have h0 : countKey db file.key = 0 := by
      simp only [findFirstByKey, List.find?_eq_none] at h
      exact List.countP_eq_zero.mpr (fun f hf => by simpa using h f hf)
    have h1 := onUploadComplete_adds_one env meta file id1 db h
    have h2 : findFirstByKey (onUploadComplete env meta file id1 db).1
        file.key ≠ none := countKey_pos_find _ _ (by omega)
    obtain ⟨row, hrow⟩ := Option.ne_none_iff_exists'.mp h2
    rw [onUploadComplete_noop env meta file id2 _ row hrow]
    dsimp only
    omega

/-- Six one-chunk pages: one page over the Free ceiling below. -/
def exPages : List PDFPage :=
  [{ pageContent := "page one", metadata := { loc := { pageNumber := 1 } } },
   { pageContent := "page two", metadata := { loc := { pageNumber := 2 } } },
   { pageContent := "page three", metadata := { loc := { pageNumber := 3 } } },
   { pageContent := "page four", metadata := { loc := { pageNumber := 4 } } },
   { pageContent := "page five", metadata := { loc := { pageNumber := 5 } } },
   { pageContent := "page six", metadata := { loc := { pageNumber := 6 } } }]

/-- Concrete ingestion environment: the parse yields `exPages`, the
splitter keeps each page whole, the hash is the identity on the text, the
embedder always succeeds, and the plan ceilings are Free = 5, Pro = 25. -/
def exEnv : IngestEnv :=
  { fetchParse := fun _ => .ok exPages,
    splitter := fun _ s => [s],
    md5 := fun s => s,
    getEmbeddings := fun _ => .ok [1],
    freePagesPerPdf := 5,
    proPagesPerPdf := 25 }

def exMeta : UserMeta := { userId := "user1", isSubscribed := false }

def exFile : UploadedFile :=
  { key := "k1", name := "doc.pdf", url := "https://storage/doc.pdf" }

/-- The run of `onUploadComplete` on the overage input. -/
def exIngestResult : FilesDB × List (String × List PineconeRecord) :=
  onUploadComplete exEnv exMeta exFile "file1" { rows := [] }

/-- **C1** (code divergence): a six-page upload by an unsubscribed caller
whose Free ceiling is 5 pages is marked `FAILED` at the overage check,
but execution continues: the pages are embedded, six vector records are
upserted into the document's namespace, and the row is finally flipped to
`SUCCESS`. The claim's required outcome (`FAILED`, no upserts, stop at
the check) does not hold. -/
theorem overage_still_embeds_and_succeeds :
    exPages.length > exEnv.freePagesPerPdf ∧
    exMeta.isSubscribed = false ∧
    statusOf exIngestResult.1 "file1" = some .SUCCESS ∧
    exIngestResult.2 ≠ [] ∧
    (exIngestResult.2.map (fun ev => ev.2.length)) = [6] := by
  refine ⟨by decide, rfl, ?_, ?_, ?_⟩ <;> decide

/-- Witness: `upload_key_idempotent` applied at the concrete environment,
twice from the empty table. -/
theorem upload_key_idempotent_witness :
    findFirstByKey { rows := [] } exFile.key = none ∧
    countKey ((onUploadComplete exEnv exMeta exFile "file2"
      (onUploadComplete exEnv exMeta exFile "file1" { rows := [] }).1).1)
      exFile.key = 1 :=
  ⟨rfl,
   (upload_key_idempotent exEnv exMeta exFile "file1" "file2"
      { rows := [] }).2 rfl⟩

/-! ## Retrieval route (`src/app/api/message/route.ts`)

The `POST` handler: authenticate, validate, check ownership, persist the
user message, embed the question, query the namespace, load the
conversation window, assemble the prompt, stream the completion, and
persist the assistant answer in `onCompletion`. Collaborators are an
environment of `Except`-valued functions; the stream outcome is `some
completion` when the stream finishes and `none` when it errors after the
response was already returned. -/

/-- Prisma `Message` row. `createdAt` is the store's insertion clock. -/
structure MessageRow where
  text : String
  isUserMessage : Bool
  userId : String
  fileId : String
  createdAt : Nat
  deriving Repr, DecidableEq

/-- The Prisma `message` table plus its monotone creation clock. -/
structure MsgDB where
  messages : List MessageRow
  clock : Nat
  deriving Repr, DecidableEq

/-- `db.message.create({ data: { text, isUserMessage, userId, fileId } })`:
append with the current clock as `createdAt`. -/
def createMessage (db : MsgDB) (text : String) (isUser : Bool)
    (userId fileId : String) : MsgDB :=
  { messages := db.messages ++
      [{ text := text, isUserMessage := isUser, userId := userId,
         fileId := fileId, createdAt := db.clock }],
    clock := db.clock + 1 }

/-- Stable insertion into a `createdAt`-ascending list. -/
def insertByCreatedAt (m : MessageRow) :
    List MessageRow → List MessageRow
  | [] => [m]
  | x :: xs =>
    if x.createdAt ≤ m.createdAt then x :: insertByCreatedAt m xs
    else m :: x :: xs

/-- `orderBy: { createdAt: "asc" }`. -/
def sortByCreatedAtAsc (l : List MessageRow) : List MessageRow :=
  l.foldr insertByCreatedAt []

/-- `db.message.findMany({ where: { fileId }, orderBy: { createdAt:
"asc" }, take: 6 })` (`route.ts` lines 76-84): the **first** six messages
in ascending creation order. -/
def loadPrevMessages (db : MsgDB) (fileId : String) : List MessageRow :=
  (sortByCreatedAtAsc (db.messages.filter (fun m => m.fileId == fileId))).take 6

/-- Role tag used in the assembled prompt. -/
inductive ChatRole where
  | user | assistant
  deriving Repr, DecidableEq

/-- `route.ts` lines 86-89: map each loaded message to a prompt turn by
its `isUserMessage` flag. -/
def formatPrevMessages (msgs : List MessageRow) : List (ChatRole × String) :=
  msgs.map (fun msg =>
    (if msg.isUserMessage then ChatRole.user else ChatRole.assistant, msg.text))

/-- Modelled from the spec's words, for comparison with
`loadPrevMessages`: the six most recently created messages of the
document, presented oldest-to-newest (fetch the newest six, then present
chronologically). -/
def specMostRecentSixChrono (db : MsgDB) (fileId : String) :
    List MessageRow :=
  let sorted := sortByCreatedAtAsc (db.messages.filter (fun m => m.fileId == fileId))
  sorted.drop (sorted.length - 6)

/-- The Kinde user object (`getUser()` result when a session exists). -/
structure KindeUser where
  id : String
  deriving Repr, DecidableEq

/-- `SendMessageValidator` output: `{ fileId, message }`. -/
structure SendMessageInput where
  fileId : String
  message : String
  deriving Repr, DecidableEq

/-- Errors escaping the route handler as thrown exceptions (surfacing as
a 500 to the transport). -/
inductive RouteError where
  /-- destructuring `user!` when `getUser()` returned `null`. -/
  | typeError
  /-- `SendMessageValidator.parse` rejection. -/
  | validationError
  /-- a rejected embedding/vector/completion call. -/
  | upstreamError
  deriving Repr, DecidableEq

/-- Responses the handler returns. -/
inductive RouteResponse where
  | unauthorized | notFound | streaming
  deriving Repr, DecidableEq

/-- Observable side effects of one `POST` call, in order. -/
inductive RouteEffect where
  | createUserMessage (text userId fileId : String)
  | embedQuery (text : String)
  | vectorQuery (namespaceId : String)
  | generateStream
  | createAssistantMessage (text userId fileId : String)
  deriving Repr, DecidableEq

/-- A Pinecone query match (`metadata` optional, as in the SDK shape). -/
structure QueryMatch where
  id : String
  metadataText : Option (List Nat)
  metadataPageNumber : Option Nat
  deriving Repr, DecidableEq

/-- `route.ts` lines 66-74: `match.metadata?.text ?? ""` and
`match.metadata?.pageNumber ?? 0`. -/
structure FormattedResult where
  pageContent : List Nat
  pageNumber : Nat
  id : String
  deriving Repr, DecidableEq

def formatResults (found : List QueryMatch) : List FormattedResult :=
  found.map (fun m =>
    { pageContent := m.metadataText.getD [],
      pageNumber := m.metadataPageNumber.getD 0,
      id := m.id })

/-- The data rendered into the prompt template (`route.ts` lines 91-128):
the ordered prior turns, the retrieved excerpts in rank order, and the
current question. The fixed instruction text is a constant template and
not repeated here. -/
structure PromptData where
  prevTurns : List (ChatRole × String)
  contexts : List (List Nat)
  question : String
  deriving Repr, DecidableEq

def assemblePrompt (prev : List (ChatRole × String))
    (results : List FormattedResult) (message : String) : PromptData :=
  { prevTurns := prev,
    contexts := results.map (·.pageContent),
    question := message }

/-- `db.file.findFirst({ where: { id: fileId, userId } })`. -/
def findFileByIdAndUser (files : FilesDB) (fileId userId : String) :
    Option FileRow :=
  files.rows.find? (fun f => f.id == fileId && f.userId == userId)

/-- Retrieval collaborators: the Gemini embedder, the namespace top-K
query, starting the completion stream for a prompt, and the stream's
eventual outcome (`some completion` on a finished stream — triggering the
`onCompletion` persistence — and `none` on a mid-stream error). -/
structure MessageEnv where
  getEmbeddings : String → Except RouteError (List Int)
  queryTopK : String → List Int → Except RouteError (List QueryMatch)
  generate : PromptData → Except RouteError Unit
  streamOutcome : Option String

/-- The `POST` handler (`route.ts` lines 19-155). Returns the message
table, the ordered effect list, the prompt that was assembled (if
reached), and the handler outcome. Control flow from the source:
`const { id: userId } = user!` throws a `TypeError` when `getUser()`
yields `null` (before the `if (!userId)` guard can return 401); a present
user with an empty id gets 401; validation runs next; a missing or
foreign file gets 404; the user message is persisted before the embedding
call; the assistant message is persisted only by `onCompletion`, i.e.
only when the stream finishes. -/
def messagePOST (env : MessageEnv) (user : Option KindeUser)
    (parseBody : Except RouteError SendMessageInput)
    (files : FilesDB) (db : MsgDB) :
    MsgDB × List RouteEffect × Option PromptData ×
      Except RouteError RouteResponse :=
  match user with
  | none => (db, [], none, .error .typeError)
  | some u =>
    let userId := u.id
    if userId = "" then (db, [], none, .ok .unauthorized)
    else
      match parseBody with
      | .error e => (db, [], none, .error e)
      | .ok body =>
        match findFileByIdAndUser files body.fileId userId with
        | none => (db, [], none, .ok .notFound)
        | some file =>
          let db1 := createMessage db body.message true userId body.fileId
          let effs1 := [RouteEffect.createUserMessage body.message userId body.fileId]
          match env.getEmbeddings body.message with
          | .error e => (db1, effs1 ++ [.embedQuery body.message], none, .error e)
          | .ok queryEmbeddings =>
            let effs2 := effs1 ++ [.embedQuery body.message]
            let nsId := convertToAscii file.id
            match env.queryTopK nsId queryEmbeddings with
            | .error e => (db1, effs2 ++ [.vectorQuery nsId], none, .error e)
            | .ok found =>
              let effs3 := effs2 ++ [.vectorQuery nsId]
              let formattedResults := formatResults found
              let prevMessages := loadPrevMessages db1 body.fileId
              let formattedPrevMessages := formatPrevMessages prevMessages
              let prompt := assemblePrompt formattedPrevMessages formattedResults body.message
              match env.generate prompt with
              | .error e => (db1, effs3 ++ [.generateStream], some prompt, .error e)
              | .ok _ =>
                let effs4 := effs3 ++ [.generateStream]
                match env.streamOutcome with
                | none => (db1, effs4, some prompt, .ok .streaming)
                | some completion =>
                  (createMessage db1 completion false userId body.fileId,
                   effs4 ++ [.createAssistantMessage completion userId body.fileId],
                   some prompt, .ok .streaming)

/-! ### Concrete retrieval scenario data -/

def exUser : KindeUser := { id := "user1" }

def exMsgEnv : MessageEnv :=
  { getEmbeddings := fun _ => .ok [1],
    queryTopK := fun _ _ => .ok [],
    generate := fun _ => .ok (),
    streamOutcome := none }

def exFileRow : FileRow :=
  { id := "f1", key := "k1", name := "doc.pdf", userId := "user1",
    url := "https://storage/doc.pdf", uploadStatus := .SUCCESS }

def exFilesDB : FilesDB := { rows := [exFileRow] }

/-- Builder for the seven-message conversation log. -/
def exMsg (i : Nat) (isUser : Bool) (t : String) : MessageRow :=
  { text := t, isUserMessage := isUser, userId := "user1", fileId := "f1",
    createdAt := i }

/-- Seven alternating messages already on the document, created at times
1 to 7. -/
def exSevenMsgDB : MsgDB :=
  { messages :=
      [exMsg 1 true "q1", exMsg 2 false "a1", exMsg 3 true "q2",
       exMsg 4 false "a2", exMsg 5 true "q3", exMsg 6 false "a3",
       exMsg 7 true "q4"],
    clock := 8 }

/-- The route run on the seven-message document with question `"q5"`. -/
def exWindowRun :
    MsgDB × List RouteEffect × Option PromptData ×
      Except RouteError RouteResponse :=
  messagePOST exMsgEnv (some exUser)
    (.ok { fileId := "f1", message := "q5" }) exFilesDB exSevenMsgDB

/-- **C2** (code divergence): with more than six messages on the
document, the history assembled into the prompt is the six *oldest*
messages (`orderBy createdAt asc, take 6`), not the six most recent. On
seven prior messages plus the just-persisted question, the prompt carries
turns `q1..a3` while the spec-side window (`specMostRecentSixChrono`,
the six most recently created presented chronologically) is `q2..q5`.
The role mapping by `isUserMessage` does hold for the turns taken. -/
theorem conversation_window_takes_oldest :
    (exWindowRun.2.2.1).map (·.prevTurns) =
      some [(ChatRole.user, "q1"), (ChatRole.assistant, "a1"),
            (ChatRole.user, "q2"), (ChatRole.assistant, "a2"),
            (ChatRole.user, "q3"), (ChatRole.assistant, "a3")] ∧
    formatPrevMessages (specMostRecentSixChrono
        (createMessage exSevenMsgDB "q5" true "user1" "f1") "f1") =
      [(ChatRole.user, "q2"), (ChatRole.assistant, "a2"),
       (ChatRole.user, "q3"), (ChatRole.assistant, "a3"),
       (ChatRole.user, "q4"), (ChatRole.user, "q5")] ∧
    (exWindowRun.2.2.1).map (·.prevTurns) ≠
      some (formatPrevMessages (specMostRecentSixChrono
        (createMessage exSevenMsgDB "q5" true "user1" "f1") "f1")) := by
  refine ⟨by decide, by decide, by decide⟩

/-- **C9** (code divergence): a retrieval request with no authenticated
caller (`getUser()` yields `null`) does not produce the Unauthorized
response: `const { id: userId } = user!` throws a `TypeError` before the
`if (!userId)` guard can run. No message is persisted and no other effect
occurs, but the outcome is a thrown error (a 500), not the immediate 401
the claim requires. -/
theorem unauthenticated_request_throws (env : MessageEnv)
    (parseBody : Except RouteError SendMessageInput) (files : FilesDB)
    (db : MsgDB) :
    messagePOST env none parseBody files db =
      (db, [], none, .error .typeError) ∧
    (messagePOST env none parseBody files db).2.2.2 ≠
      .ok .unauthorized :=
  ⟨rfl, fun h => Except.noConfusion h⟩

/-- **C8**: once the ownership check passes, the user message is the
first effect — persisted before any embedding, similarity search, or
generation is attempted; an assistant message effect occurs only with the
completion text of a finished stream; and when the stream errors after
partial output (outcome `none`), the message table holds exactly the
pre-existing rows plus the user message — no assistant row. -/
theorem user_message_persisted_first (env : MessageEnv) (u : KindeUser)
    (body : SendMessageInput) (files : FilesDB) (db : MsgDB)
    (file : FileRow) (hid : u.id ≠ "")
    (hfile : findFileByIdAndUser files body.fileId u.id = some file) :
    (messagePOST env (some u) (.ok body) files db).2.1.head? =
      some (.createUserMessage body.message u.id body.fileId) ∧
    (∀ t uid fid,
      RouteEffect.createAssistantMessage t uid fid ∈
        (messagePOST env (some u) (.ok body) files db).2.1 →
      env.streamOutcome = some t) ∧
    (env.streamOutcome = none →
      (messagePOST env (some u) (.ok body) files db).1 =
        createMessage db body.message true u.id body.fileId) := by
  unfold messagePOST
  dsimp only
  rw [if_neg hid, hfile]
  dsimp only
  cases hemb : env.getEmbeddings body.message with
  | error e =>
    refine ⟨rfl, ?_, fun _ => rfl⟩
    intro t uid fid ht
    simp at ht
  | ok qe =>
    dsimp only
    cases hq : env.queryTopK (convertToAscii file.id) qe with
    | error e =>
      refine ⟨rfl, ?_, fun _ => rfl⟩
      intro t uid fid ht
      simp at ht
    | ok found =>
      dsimp only
      cases hg : env.generate (assemblePrompt
          (formatPrevMessages (loadPrevMessages
            (createMessage db body.message true u.id body.fileId)
            body.fileId))
          (formatResults found) body.message) with
      | error e =>
        refine ⟨rfl, ?_, fun _ => rfl⟩
        intro t uid fid ht
        simp at ht
      | ok u2 =>
        dsimp only
        cases hs : env.streamOutcome with
        | none =>
          refine ⟨rfl, ?_, fun _ => rfl⟩
          intro t uid fid ht
          simp at ht
        | some completion =>
          refine ⟨rfl, ?_, fun hn => ?_⟩
          · intro t uid fid ht
            simp at ht
            obtain ⟨rfl, -, -⟩ := ht
            rfl
          · exact Option.noConfusion hn

/-- Witness: `user_message_persisted_first` at a concrete environment
whose stream errors mid-way. -/
theorem user_message_persisted_first_witness :
    exUser.id ≠ "" ∧
    findFileByIdAndUser exFilesDB "f1" exUser.id = some exFileRow ∧
    (messagePOST exMsgEnv (some exUser)
        (.ok { fileId := "f1", message := "hello" }) exFilesDB
        { messages := [], clock := 0 }).2.1.head? =
      some (.createUserMessage "hello" exUser.id "f1") ∧
    (messagePOST exMsgEnv (some exUser)
        (.ok { fileId := "f1", message := "hello" }) exFilesDB
        { messages := [], clock := 0 }).1 =
      createMessage { messages := [], clock := 0 } "hello" true
        exUser.id "f1" :=
  ⟨by decide, rfl,
   (user_message_persisted_first exMsgEnv exUser
      { fileId := "f1", message := "hello" } exFilesDB
      { messages := [], clock := 0 } exFileRow (by decide) rfl).1,
   (user_message_persisted_first exMsgEnv exUser
      { fileId := "f1", message := "hello" } exFilesDB
      { messages := [], clock := 0 } exFileRow (by decide) rfl).2.2 rfl⟩

end PdfGpt
